import Mathlib

/-
Verification development for `src/models/train_model.py` of the fish_classifier
repository: a shallow embedding of the training-and-evaluation loop
(`train_model`) together with its dataset splitter, batch iterator, metric
accumulation/finalization, pruning handling and artifact persistence, and
proofs about the claims of the specification.

Modelling conventions:
* Python floats are modelled as exact rationals (`ℚ`); the float literal
  `0.85` (line 77) is read as the exact fraction `17/20`.
* Fallible Python code is modelled with `Except PyError`; the constructors of
  `PyError` name both the Python exceptions the code actually raises
  (`ZeroDivisionError`, `StopIteration`, `ValueError`, `optuna.TrialPruned`)
  and the error classes the specification postulates (`InvalidSplitError`,
  `EmptyPartitionError`), so that claims about the latter can be stated.
* The opaque external collaborators (the torch pseudo-random generator, the
  `Classifier` model and the loss/accuracy numbers it produces) are not part
  of the repository sources; they are modelled from the spec, as documented
  on each such definition.
-/

namespace FishTrain

/-- Equality of fallible results is decidable componentwise. -/
instance {ε α : Type} [DecidableEq ε] [DecidableEq α] : DecidableEq (Except ε α) := fun x y =>
  match x, y with
  | .error a, .error b =>
    if h : a = b then .isTrue (by rw [h]) else .isFalse (by simp [h])
  | .ok a, .ok b =>
    if h : a = b then .isTrue (by rw [h]) else .isFalse (by simp [h])
  | .error _, .ok _ => .isFalse (by simp)
  | .ok _, .error _ => .isFalse (by simp)

/-- Modelled from the spec: the torch global pseudo-random generator
(an external collaborator; `torch` is not part of this repository).
The generator state is a natural number advanced by a 64-bit linear
congruential step; what matters for the claims is only that it is a pure
function of the seed. -/
def lcg (s : ℕ) : ℕ := (6364136223846793005 * s + 1442695040888963407) % 2 ^ 64

/-- Modelled from the spec: the generator state consumed by the `k`-th
shuffling pass of a run that called `torch.manual_seed(seed)` once at start
(line 42) and never reseeds. -/
def passState (s k : ℕ) : ℕ := lcg^[k + 1] s

/-- Modelled from the spec: "a seeded pseudo-random shuffle of [0, N)" —
Fisher–Yates driven by `lcg`, with fuel for structural termination.
`fuel ≥ l.length` always holds at use sites. -/
def fyAux : ℕ → ℕ → List ℕ → List ℕ
  | 0, _, _ => []
  | _, _, [] => []
  | fuel + 1, s, x :: xs =>
    (x :: xs).get ⟨lcg s % (x :: xs).length, Nat.mod_lt _ (Nat.succ_pos _)⟩ ::
      fyAux fuel (lcg s) ((x :: xs).eraseIdx (lcg s % (x :: xs).length))

/-- Modelled from the spec: the seeded pseudo-random permutation used by
`torch.utils.data.random_split` (line 79) and by the shuffling data loaders
(lines 89–95). -/
def fisherYates (s : ℕ) (l : List ℕ) : List ℕ := fyAux l.length s l

/-- Lines 77–78: `train_n = int(0.85 * len(train_set))` for the split
fraction `fNum/fDen`; `int()` truncation of the nonnegative product
`(fNum/fDen)·N` is exactly the natural division `fNum*N/fDen`.
The code fixes `fNum/fDen = 17/20` (the float literal `0.85`). -/
def trainCountF (fNum fDen N : ℕ) : ℕ := fNum * N / fDen

/-- Line 78: `val_n = len(train_set) - train_n`. -/
def valCountF (fNum fDen N : ℕ) : ℕ := N - trainCountF fNum fDen N

/-- The two index partitions produced by the Dataset Splitter. -/
structure SplitResult where
  trainIdx : List ℕ
  valIdx : List ℕ
deriving DecidableEq

/-- Line 79: `torch.utils.data.random_split(train_set, [train_n, val_n])`
with the split fraction `fNum/fDen`: draw a pseudo-random permutation of
`[0, N)` from the generator state `s` and hand the first `train_n` indices
to the training partition and the rest to the validation partition. -/
def randomSplitF (fNum fDen : ℕ) (s N : ℕ) : SplitResult :=
  let p := fisherYates s (List.range N)
  ⟨p.take (trainCountF fNum fDen N), p.drop (trainCountF fNum fDen N)⟩

/-- Lines 77–79 with the code's fixed fraction `0.85 = 17/20`. -/
def trainCount (N : ℕ) : ℕ := trainCountF 17 20 N

/-- Line 78 with the code's fixed fraction. -/
def valCount (N : ℕ) : ℕ := valCountF 17 20 N

/-- Lines 77–79 with the code's fixed fraction. -/
def randomSplit (s N : ℕ) : SplitResult := randomSplitF 17 20 s N

/-- Error outcomes of the embedded code.  The first four are the exceptions
the Python code can actually raise: `ZeroDivisionError` (lines 184–187),
`StopIteration` (line 98 on an empty train loader), `ValueError`
(`DataLoader` with `batch_size = 0`, line 89), `optuna.TrialPruned`
(line 203).  `invalidSplit` and `emptyPartition` stand for the
`InvalidSplitError` and `EmptyPartitionError` classes that the specification
postulates; no code path produces them. -/
inductive PyError where
  | zeroDivision
  | stopIteration
  | valueError
  | trialPruned
  | invalidSplit
  | emptyPartition
deriving DecidableEq

/-- The spec's "Dataset Splitter" component: lines 40–43 followed by
lines 77–79.  `ambient` is the generator state of the process before the
call; `torch.manual_seed(seed)` (line 42) discards it and reseats the
generator from `seed` alone.  The component performs no validation of the
fraction or of `N` and never raises, hence the always-`ok` result. -/
def datasetSplitter (ambient : ℕ) (N : ℕ) (seed : ℕ) : Except PyError SplitResult :=
  .ok (randomSplit seed N)

/-- Batching with fuel for structural termination; `fuel ≥ l.length` holds
at all use sites. -/
def chunkAux {α : Type} : ℕ → ℕ → List α → List (List α)
  | 0, _, _ => []
  | _, _, [] => []
  | fuel + 1, B, x :: xs => (x :: xs).take B :: chunkAux fuel B ((x :: xs).drop B)

/-- Lines 89–95: one full pass of a `DataLoader` with `batch_size = B` and
`drop_last` left at its default `False` chops the (already shuffled) sample
sequence into consecutive batches of size `B`, the last one possibly
smaller. -/
def batchesOf {α : Type} (B : ℕ) (l : List α) : List (List α) := chunkAux l.length B l

/-- One full pass of the Batch Iterator over a partition: reshuffle the
partition from the generator state `s`, then batch it (lines 89–95). -/
def oneEpochPass (s : ℕ) (part : List ℕ) (B : ℕ) : List (List ℕ) :=
  batchesOf B (fisherYates s part)

/-- One entry of the Metric History: the four scalars appended per epoch at
lines 184–187 (the code keeps four parallel lists; one record per epoch is
the same data). -/
structure EpochRecord where
  trainLoss : ℚ
  trainAcc : ℚ
  valLoss : ℚ
  valAcc : ℚ
deriving DecidableEq

/-- Python division `a / b` with an integer divisor: raises
`ZeroDivisionError` when `b = 0`, otherwise produces the exact quotient. -/
def pyDiv (a : ℚ) (b : ℕ) : Except PyError ℚ :=
  if b = 0 then .error .zeroDivision else .ok (a / b)

/-- Lines 184–187, metric finalization for one epoch, in source order:
`train_loss / len(trainloader)`, `train_correct / len(train_data)`,
`val_loss / len(valoader)`, `val_correct / len(val_data)`.  Each division
is a Python division that raises `ZeroDivisionError` on a zero divisor. -/
def finalizeEpoch (trainLossSum : ℚ) (trainCorrect : ℕ) (valLossSum : ℚ)
    (valCorrect : ℕ) (numTrainBatches trainSize numValBatches valSize : ℕ) :
    Except PyError EpochRecord := do
  let tl ← pyDiv trainLossSum numTrainBatches
  let ta ← pyDiv (trainCorrect : ℚ) trainSize
  let vl ← pyDiv valLossSum numValBatches
  let va ← pyDiv (valCorrect : ℚ) valSize
  .ok ⟨tl, ta, vl, va⟩

/-- Modelled from the spec: the opaque differentiable Model collaborator
(the `Classifier` module is not among the repository sources; the spec
treats it as "an opaque differentiable function mapping an image batch to
class log-probabilities").  `nll ph e i` is the negative-log-likelihood
contribution of sample `i` in phase `ph` (`true` = train) of epoch `e`;
`correct ph e i` says whether the model's top-1 prediction for sample `i`
matches its label there. -/
structure ModelOracle where
  nll : Bool → ℕ → ℕ → ℚ
  correct : Bool → ℕ → ℕ → Bool

/-- Lines 147–148 / 176: the running loss sum of one phase of one epoch.
Each batch contributes `loss.item()`, the mean NLL over the batch
(`nn.NLLLoss` with its default mean reduction). -/
def phaseLoss (O : ModelOracle) (ph : Bool) (e : ℕ) (batches : List (List ℕ)) : ℚ :=
  (batches.map (fun b => (b.map (O.nll ph e)).sum / (b.length : ℚ))).sum

/-- Lines 158–160 / 179–181: the running correct-prediction count of one
phase of one epoch, summed over batches. -/
def phaseCorrect (O : ModelOracle) (ph : Bool) (e : ℕ) (batches : List (List ℕ)) : ℕ :=
  (batches.map (fun b => b.countP (O.correct ph e))).sum

/-- Lines 130–187: one epoch of the training loop — a training pass and a
validation pass over freshly shuffled batches, followed by metric
finalization.  Each shuffling pass consumes the global generator; pass
`2e+1` (train) and `2e+2` (val) of the run, pass `0` having been consumed
by the `dataiter` peek at line 97. -/
def runEpoch (O : ModelOracle) (s B : ℕ) (tI vI : List ℕ) (e : ℕ) :
    Except PyError EpochRecord :=
  let tb := batchesOf B (fisherYates (passState s (2 * e + 1)) tI)
  let vb := batchesOf B (fisherYates (passState s (2 * e + 2)) vI)
  finalizeEpoch (phaseLoss O true e tb) (phaseCorrect O true e tb)
    (phaseLoss O false e vb) (phaseCorrect O false e vb)
    tb.length tI.length vb.length vI.length

/-- The record `runEpoch` appends when none of its four divisors is zero
(the total counterpart of `runEpoch`, used to state what the loop
produces). -/
def epochRecord (O : ModelOracle) (s B : ℕ) (tI vI : List ℕ) (e : ℕ) : EpochRecord :=
  let tb := batchesOf B (fisherYates (passState s (2 * e + 1)) tI)
  let vb := batchesOf B (fisherYates (passState s (2 * e + 2)) vI)
  ⟨phaseLoss O true e tb / (tb.length : ℚ),
   (phaseCorrect O true e tb : ℚ) / (tI.length : ℚ),
   phaseLoss O false e vb / (vb.length : ℚ),
   (phaseCorrect O false e vb : ℚ) / (vI.length : ℚ)⟩

/-- Lines 197–203: `if trial: trial.report(...); if trial.should_prune():`.
A trial handle is an optional ``should_prune`` answer per epoch index;
absence (`trial = None`) means no pruning check is performed. -/
def pruneCheck (trial : Option (ℕ → Bool)) (e : ℕ) : Bool :=
  match trial with
  | none => false
  | some p => p e

/-- How the training loop of lines 128–203 can exit, together with the
Metric History accumulated at that point (the program state of the four
lists at lines 128/184–187). -/
inductive LoopOutcome where
  | completed (hist : List EpochRecord)
  | pruned (hist : List EpochRecord)
  | failed (err : PyError) (hist : List EpochRecord)
deriving DecidableEq

/-- The Metric History held by the loop at its exit point, whatever the
exit. -/
def outcomeHist : LoopOutcome → List EpochRecord
  | .completed h => h
  | .pruned h => h
  | .failed _ h => h

/-- Lines 128–203: the epoch loop.  Per epoch index `e`: run the epoch and
append its record (lines 130–187); then, when a trial handle is present,
report and check `should_prune()` (lines 197–203) — a prune signal raises
`optuna.TrialPruned` at once, so no further epoch runs. -/
def trainLoop (O : ModelOracle) (s B : ℕ) (tI vI : List ℕ)
    (trial : Option (ℕ → Bool)) : List ℕ → List EpochRecord → LoopOutcome
  | [], hist => .completed hist
  | e :: rest, hist =>
    match runEpoch O s B tI vI e with
    | .error err => .failed err hist
    | .ok r =>
      if pruneCheck trial e then .pruned (hist ++ [r])
      else trainLoop O s B tI vI trial rest (hist ++ [r])

/-- The four artifact files `save_results` (lines 232–307) writes in the
local (`use_azure = False`) configuration: the serialized model weights,
the pickled metric-history dictionary, and the loss and accuracy plots. -/
inductive Artifact where
  | modelWeights
  | statsDict
  | lossPlot
  | accuracyPlot
deriving DecidableEq

/-- Lines 279–307: the artifact files written by one `save_results` call. -/
def saveResults : List Artifact :=
  [.modelWeights, .statsDict, .lossPlot, .accuracyPlot]

/-- What a successful `train_model` call hands back: the returned
`train_val_dict` (the Metric History, line 229) plus the artifact files
persisted on the way (lines 213–223). -/
structure TrainResult where
  history : List EpochRecord
  artifacts : List Artifact
deriving DecidableEq

/-- Lines 20–229, `train_model` in its local configuration
(`use_azure = False`, the default): force the seed to `0` (line 40), seed
the generators (lines 42–43), split the dataset (lines 77–79), build the
loaders (lines 89–95; `DataLoader` raises `ValueError` for
`batch_size = 0`), peek one batch (lines 97–98; `StopIteration` when the
training partition is empty), run the epoch loop (lines 128–203; a prune
signal raises `optuna.TrialPruned`, discarding the local state), persist
the artifacts when `save_training_results` is set (lines 213–223), and
return the metric dictionary (line 229). -/
def trainModel (O : ModelOracle) (N : ℕ) (epochs : ℕ) (B : ℕ) (seed : ℤ)
    (trial : Option (ℕ → Bool)) (saveTrainingResults : Bool) :
    Except PyError TrainResult :=
  let s : ℕ := 0
  let sp := randomSplit s N
  if B = 0 then .error .valueError
  else if sp.trainIdx.isEmpty then .error .stopIteration
  else
    match trainLoop O s B sp.trainIdx sp.valIdx trial (List.range epochs) [] with
    | .completed hist => .ok ⟨hist, if saveTrainingResults then saveResults else []⟩
    | .pruned _ => .error .trialPruned
    | .failed err _ => .error err

/-- A concrete model oracle: every sample contributes unit loss and a
correct prediction. -/
def oracleOne : ModelOracle := ⟨fun _ _ _ => 1, fun _ _ _ => true⟩

/-- A concrete model oracle: every sample contributes zero loss and a wrong
prediction. -/
def oracleZero : ModelOracle := ⟨fun _ _ _ => 0, fun _ _ _ => false⟩

/-- A trial handle whose `should_prune()` answers false at epochs 0 and 1
and true at epoch 2. -/
def pruneAtTwo : ℕ → Bool := fun e => e == 2

/-! ### Facts about the pseudo-random shuffle -/

/-- Picking the `k`-th element and erasing it rearranges the list. -/
theorem get_cons_eraseIdx_perm (l : List ℕ) (k : ℕ) (h : k < l.length) :
    List.Perm (l.get ⟨k, h⟩ :: l.eraseIdx k) l := by
  have h1 : List.Perm (l.get ⟨k, h⟩ :: (l.take k ++ l.drop (k + 1)))
      (l.take k ++ l.get ⟨k, h⟩ :: l.drop (k + 1)) := List.perm_middle.symm
  have h2 : l.take k ++ l.get ⟨k, h⟩ :: l.drop (k + 1) = l := by
    rw [List.get_cons_drop, List.take_append_drop]
  rw [List.eraseIdx_eq_take_drop_succ]
  exact h1.trans (by rw [h2])

/-- The Fisher–Yates shuffle permutes its input when given enough fuel. -/
theorem fyAux_perm : ∀ (fuel s : ℕ) (l : List ℕ), l.length ≤ fuel →
    List.Perm (fyAux fuel s l) l
  | 0, _, l, h => by
    have : l = [] := List.eq_nil_of_length_eq_zero (Nat.le_zero.mp h)
    subst this
    simp [fyAux]
  | _ + 1, _, [], _ => by simp [fyAux]
  | fuel + 1, s, x :: xs, h => by
    have hkl : lcg s % (x :: xs).length < (x :: xs).length :=
      Nat.mod_lt _ (Nat.succ_pos _)
    have hlen : ((x :: xs).eraseIdx (lcg s % (x :: xs).length)).length ≤ fuel := by
      have := List.length_eraseIdx_add_one hkl
      simp only [List.length_cons] at h this ⊢
      omega
    have ih := fyAux_perm fuel (lcg s) ((x :: xs).eraseIdx (lcg s % (x :: xs).length)) hlen
    exact (ih.cons _).trans (get_cons_eraseIdx_perm (x :: xs) _ hkl)

/-- The shuffled partition is a permutation of the partition. -/
theorem fisherYates_perm (s : ℕ) (l : List ℕ) : List.Perm (fisherYates s l) l :=
  fyAux_perm l.length s l le_rfl

/-- Shuffling does not change the number of samples. -/
theorem fisherYates_length (s : ℕ) (l : List ℕ) :
    (fisherYates s l).length = l.length :=
  (fisherYates_perm s l).length_eq

/-! ### Facts about batching -/

/-- With a positive batch size and enough fuel, the batches concatenate back
to the sample sequence: no sample is dropped or duplicated. -/
theorem chunkAux_flatten {α : Type} (B : ℕ) (hB : 0 < B) :
    ∀ (fuel : ℕ) (l : List α), l.length ≤ fuel → (chunkAux fuel B l).flatten = l
  | 0, l, h => by
    have : l = [] := List.eq_nil_of_length_eq_zero (Nat.le_zero.mp h)
    subst this
    simp [chunkAux]
  | _ + 1, [], _ => by simp [chunkAux]
  | fuel + 1, x :: xs, h => by
    have hlen : ((x :: xs).drop B).length ≤ fuel := by
      simp only [List.length_drop, List.length_cons] at h ⊢
      omega
    simp only [chunkAux, List.flatten_cons]
    rw [chunkAux_flatten B hB fuel ((x :: xs).drop B) hlen, List.take_append_drop]

/-- The batch sizes of one pass: `⌊P/B⌋` full batches of size `B` followed by
one final smaller batch of size `P mod B` when `B` does not divide `P`. -/
theorem chunkAux_sizes {α : Type} (B : ℕ) (hB : 0 < B) :
    ∀ (fuel : ℕ) (l : List α), l.length ≤ fuel →
      (chunkAux fuel B l).map List.length =
        List.replicate (l.length / B) B ++
          (if l.length % B = 0 then [] else [l.length % B])
  | 0, l, h => by
    have : l = [] := List.eq_nil_of_length_eq_zero (Nat.le_zero.mp h)
    subst this
    simp [chunkAux]
  | _ + 1, [], _ => by simp [chunkAux]
  | fuel + 1, x :: xs, h => by
    have hlen : ((x :: xs).drop B).length ≤ fuel := by
      simp only [List.length_drop, List.length_cons] at h ⊢
      omega
    have ih := chunkAux_sizes B hB fuel ((x :: xs).drop B) hlen
    rw [List.length_drop] at ih
    simp only [List.length_cons] at ih ⊢
    rcases Nat.lt_or_ge (xs.length + 1) B with hBL | hBL
    · have h0 : xs.length + 1 - B = 0 := by omega
      rw [h0] at ih
      simp only [Nat.zero_div, Nat.zero_mod, List.replicate_zero, if_pos rfl,
        List.nil_append] at ih
      simp only [chunkAux, List.map_cons, ih, List.length_take, List.length_cons,
        Nat.min_eq_right (le_of_lt hBL), Nat.div_eq_of_lt hBL, Nat.mod_eq_of_lt hBL,
        List.replicate_zero, List.nil_append]
      simp
    · rw [Nat.div_eq_sub_div hB hBL, Nat.mod_eq_sub_mod hBL]
      simp only [chunkAux, List.map_cons, ih, List.length_take, List.length_cons,
        Nat.min_eq_left hBL, List.replicate_succ, List.cons_append]

/-- Whatever the batch size, batching yields at most the partition's samples
(with a positive batch size it yields exactly them). -/
theorem chunkAux_flatten_length_le {α : Type} :
    ∀ (fuel B : ℕ) (l : List α), (chunkAux fuel B l).flatten.length ≤ l.length
  | 0, _, l => by simp [chunkAux]
  | _ + 1, _, [] => by simp [chunkAux]
  | fuel + 1, B, x :: xs => by
    have ih := chunkAux_flatten_length_le fuel B ((x :: xs).drop B)
    simp only [chunkAux, List.flatten_cons, List.length_append, List.length_take,
      List.length_drop, List.length_cons] at ih ⊢
    omega

/-- Batching a nonempty sample sequence yields at least one batch (this is
what makes `len(trainloader)` a nonzero divisor at line 184). -/
theorem batchesOf_ne_nil {α : Type} (B : ℕ) (l : List α) (h : l ≠ []) :
    batchesOf B l ≠ [] := by
  cases l with
  | nil => exact absurd rfl h
  | cons x xs => simp [batchesOf, chunkAux]

/-! ### Facts about metric finalization and one epoch -/

/-- When all four divisors are nonzero, finalization succeeds and yields the
four quotients of lines 184–187. -/
theorem finalizeEpoch_ok (a b : ℚ) (c d n1 s1 n2 s2 : ℕ) (h1 : n1 ≠ 0)
    (h2 : s1 ≠ 0) (h3 : n2 ≠ 0) (h4 : s2 ≠ 0) :
    finalizeEpoch a c b d n1 s1 n2 s2 =
      .ok ⟨a / n1, (c : ℚ) / s1, b / n2, (d : ℚ) / s2⟩ := by
  simp [finalizeEpoch, pyDiv, h1, h2, h3, h4, Bind.bind, Except.bind]

/-- When any of the four divisors is zero, finalization raises
`ZeroDivisionError` (and nothing else). -/
theorem finalizeEpoch_zero (a b : ℚ) (c d n1 s1 n2 s2 : ℕ)
    (h : n1 = 0 ∨ s1 = 0 ∨ n2 = 0 ∨ s2 = 0) :
    finalizeEpoch a c b d n1 s1 n2 s2 = .error .zeroDivision := by
  by_cases h1 : n1 = 0 <;> by_cases h2 : s1 = 0 <;> by_cases h3 : n2 = 0 <;>
    by_cases h4 : s2 = 0 <;> simp_all [finalizeEpoch, pyDiv, Bind.bind, Except.bind]

/-- Inversion: a successful finalization forces all four divisors to be
nonzero and pins the produced record. -/
theorem finalizeEpoch_eq_ok (a b : ℚ) (c d n1 s1 n2 s2 : ℕ) (r : EpochRecord)
    (h : finalizeEpoch a c b d n1 s1 n2 s2 = .ok r) :
    n1 ≠ 0 ∧ s1 ≠ 0 ∧ n2 ≠ 0 ∧ s2 ≠ 0 ∧
      r = ⟨a / n1, (c : ℚ) / s1, b / n2, (d : ℚ) / s2⟩ := by
  by_cases h1 : n1 = 0 <;> by_cases h2 : s1 = 0 <;> by_cases h3 : n2 = 0 <;>
    by_cases h4 : s2 = 0 <;> simp_all [finalizeEpoch, pyDiv, Bind.bind, Except.bind]

/-- The accumulated phase loss is nonnegative as soon as every per-sample
NLL contribution is (the spec's log-probability contract for the Model). -/
theorem phaseLoss_nonneg (O : ModelOracle) (ph : Bool) (e : ℕ)
    (bs : List (List ℕ)) (h : ∀ i, 0 ≤ O.nll ph e i) :
    0 ≤ phaseLoss O ph e bs := by
  apply List.sum_nonneg
  intro x hx
  simp only [List.mem_map] at hx
  obtain ⟨b, _, rfl⟩ := hx
  apply div_nonneg _ (by positivity)
  apply List.sum_nonneg
  intro y hy
  simp only [List.mem_map] at hy
  obtain ⟨i, _, rfl⟩ := hy
  exact h i

/-- The correct-prediction count of one phase never exceeds the number of
samples in the partition it batches. -/
theorem phaseCorrect_le (O : ModelOracle) (ph : Bool) (e : ℕ) (B st : ℕ)
    (l : List ℕ) :
    phaseCorrect O ph e (batchesOf B (fisherYates st l)) ≤ l.length := by
  have h1 : phaseCorrect O ph e (batchesOf B (fisherYates st l)) ≤
      ((batchesOf B (fisherYates st l)).map List.length).sum := by
    apply List.sum_le_sum
    intro b _
    exact List.countP_le_length _
  have h2 : ((batchesOf B (fisherYates st l)).map List.length).sum =
      (batchesOf B (fisherYates st l)).flatten.length :=
    (List.length_flatten _).symm
  have h3 : (batchesOf B (fisherYates st l)).flatten.length ≤
      (fisherYates st l).length := chunkAux_flatten_length_le _ _ _
  rw [fisherYates_length] at h3
  exact le_trans h1 (le_trans (le_of_eq h2) h3)

/-- With a nonzero batch size and nonempty partitions, one epoch of the loop
succeeds and appends exactly the record `epochRecord`. -/
theorem runEpoch_ok (O : ModelOracle) (s B : ℕ) (tI vI : List ℕ) (e : ℕ)
    (htI : tI ≠ []) (hvI : vI ≠ []) :
    runEpoch O s B tI vI e = .ok (epochRecord O s B tI vI e) := by
  unfold runEpoch epochRecord
  apply finalizeEpoch_ok
  · intro hc
    exact batchesOf_ne_nil B _ (fun hn => by
      have := fisherYates_length (passState s (2 * e + 1)) tI
      rw [hn] at this
      exact htI (List.eq_nil_of_length_eq_zero this.symm))
      (List.eq_nil_of_length_eq_zero hc)
  · intro hc
    exact htI (List.eq_nil_of_length_eq_zero hc)
  · intro hc
    exact batchesOf_ne_nil B _ (fun hn => by
      have := fisherYates_length (passState s (2 * e + 2)) vI
      rw [hn] at this
      exact hvI (List.eq_nil_of_length_eq_zero this.symm))
      (List.eq_nil_of_length_eq_zero hc)
  · intro hc
    exact hvI (List.eq_nil_of_length_eq_zero hc)

/-- Every record a successful epoch produces has nonnegative losses and
accuracies in `[0, 1]`, as soon as every per-sample NLL contribution is
nonnegative. -/
theorem runEpoch_ok_bounds (O : ModelOracle) (s B : ℕ) (tI vI : List ℕ)
    (e : ℕ) (r : EpochRecord) (hnll : ∀ ph k i, 0 ≤ O.nll ph k i)
    (h : runEpoch O s B tI vI e = .ok r) :
    0 ≤ r.trainLoss ∧ 0 ≤ r.valLoss ∧
      0 ≤ r.trainAcc ∧ r.trainAcc ≤ 1 ∧ 0 ≤ r.valAcc ∧ r.valAcc ≤ 1 := by
  unfold runEpoch at h
  obtain ⟨hn1, hs1, hn2, hs2, hr⟩ := finalizeEpoch_eq_ok _ _ _ _ _ _ _ _ _ h
  have htb := phaseLoss_nonneg O true e
    (batchesOf B (fisherYates (passState s (2 * e + 1)) tI)) (hnll true e)
  have hvb := phaseLoss_nonneg O false e
    (batchesOf B (fisherYates (passState s (2 * e + 2)) vI)) (hnll false e)
  have htc := phaseCorrect_le O true e B (passState s (2 * e + 1)) tI
  have hvc := phaseCorrect_le O false e B (passState s (2 * e + 2)) vI
  have htIpos : (0 : ℚ) < (tI.length : ℚ) :=
    Nat.cast_pos.mpr (Nat.pos_of_ne_zero hs1)
  have hvIpos : (0 : ℚ) < (vI.length : ℚ) :=
    Nat.cast_pos.mpr (Nat.pos_of_ne_zero hs2)
  rw [hr]
  refine ⟨div_nonneg htb (Nat.cast_nonneg _), div_nonneg hvb (Nat.cast_nonneg _),
    div_nonneg (Nat.cast_nonneg _) (Nat.cast_nonneg _), ?_,
    div_nonneg (Nat.cast_nonneg _) (Nat.cast_nonneg _), ?_⟩
  · rw [div_le_one htIpos]
    exact_mod_cast htc
  · rw [div_le_one hvIpos]
    exact_mod_cast hvc

/-! ### Facts about the epoch loop -/

/-- When no epoch in the window signals a prune, the loop completes the
whole window and appends one record per epoch. -/
theorem trainLoop_no_prune (O : ModelOracle) (s B : ℕ) (tI vI : List ℕ)
    (trial : Option (ℕ → Bool)) (htI : tI ≠ []) (hvI : vI ≠ []) :
    ∀ (n a : ℕ) (hist : List EpochRecord),
      (∀ j, a ≤ j → j < a + n → pruneCheck trial j = false) →
      trainLoop O s B tI vI trial (List.range' a n) hist =
        .completed (hist ++ (List.range' a n).map (epochRecord O s B tI vI))
  | 0, a, hist, _ => by simp [trainLoop]
  | n + 1, a, hist, hnp => by
    rw [List.range'_succ]
    show trainLoop O s B tI vI trial (a :: List.range' (a + 1) n) hist = _
    rw [trainLoop, runEpoch_ok O s B tI vI a htI hvI]
    simp only [hnp a le_rfl (by omega), Bool.false_eq_true, if_false]
    rw [trainLoop_no_prune O s B tI vI trial htI hvI n (a + 1) (hist ++ [_])
      (fun j h1 h2 => hnp j (by omega) (by omega))]
    simp [List.range'_succ]

/-- When the trial handle first signals a prune at epoch `e` of the window,
the loop runs epochs `a, …, e`, appends their records, and stops pruned. -/
theorem trainLoop_prune_at (O : ModelOracle) (s B : ℕ) (tI vI : List ℕ)
    (p : ℕ → Bool) (htI : tI ≠ []) (hvI : vI ≠ []) :
    ∀ (n a e : ℕ) (hist : List EpochRecord), a ≤ e → e < a + n →
      (∀ j, a ≤ j → j < e → p j = false) → p e = true →
      trainLoop O s B tI vI (some p) (List.range' a n) hist =
        .pruned (hist ++ (List.range' a (e + 1 - a)).map (epochRecord O s B tI vI))
  | 0, a, e, hist, hae, hlt, _, _ => by omega
  | n + 1, a, e, hist, hae, hlt, hbefore, hpe => by
    rw [List.range'_succ]
    show trainLoop O s B tI vI (some p) (a :: List.range' (a + 1) n) hist = _
    rw [trainLoop, runEpoch_ok O s B tI vI a htI hvI]
    rcases Nat.eq_or_lt_of_le hae with heq | hgt
    · subst heq
      simp only [pruneCheck, hpe, if_true]
      have h1 : a + 1 - a = 1 := by omega
      simp [h1, List.range'_one]
    · have hpa : pruneCheck (some p) a = false := by
        simp [pruneCheck, hbefore a le_rfl hgt]
      simp only [hpa, Bool.false_eq_true, if_false]
      rw [trainLoop_prune_at O s B tI vI p htI hvI n (a + 1) e (hist ++ [_])
        hgt (by omega) (fun j h1 h2 => hbefore j (by omega) h2) hpe]
      have h2 : e + 1 - a = (e - a) + 1 := by omega
      have h3 : e + 1 - (a + 1) = e - a := by omega
      rw [h2, h3, List.range'_succ]
      simp

/-- Every record held by the loop at exit satisfies any property that all
successfully finalized epoch records satisfy. -/
theorem trainLoop_hist_invariant (O : ModelOracle) (s B : ℕ) (tI vI : List ℕ)
    (trial : Option (ℕ → Bool)) (P : EpochRecord → Prop)
    (hP : ∀ e r, runEpoch O s B tI vI e = .ok r → P r) :
    ∀ (es : List ℕ) (hist : List EpochRecord), (∀ r ∈ hist, P r) →
      ∀ r ∈ outcomeHist (trainLoop O s B tI vI trial es hist), P r
  | [], hist, hhist => by
    simpa [trainLoop, outcomeHist] using hhist
  | e :: rest, hist, hhist => by
    rw [trainLoop]
    rcases hok : runEpoch O s B tI vI e with err | r0
    · simpa [outcomeHist] using hhist
    · have hmem : ∀ r ∈ hist ++ [r0], P r := by
        intro r hr
        rcases List.mem_append.mp hr with h | h
        · exact hhist r h
        · rw [List.mem_singleton.mp h]
          exact hP e r0 hok
      by_cases hpr : pruneCheck trial e = true
      · simpa [outcomeHist, hpr] using hmem
      · simp only [hpr, if_false]
        exact trainLoop_hist_invariant O s B tI vI trial P hP rest (hist ++ [r0]) hmem

/-! ### Facts about the splitter's partition sizes -/

/-- A fraction below one keeps the training count within the dataset. -/
theorem trainCountF_le (fNum fDen N : ℕ) (h : fNum ≤ fDen) :
    trainCountF fNum fDen N ≤ N := by
  unfold trainCountF
  rcases Nat.eq_zero_or_pos fDen with h0 | h0
  · simp [h0]
  · calc fNum * N / fDen ≤ fDen * N / fDen :=
        Nat.div_le_div_right (Nat.mul_le_mul_right N h)
    _ = N := Nat.mul_div_cancel_left N h0

/-- The training partition holds exactly `⌊f·N⌋` indices. -/
theorem randomSplitF_trainIdx_length (fNum fDen s N : ℕ) (h : fNum ≤ fDen) :
    (randomSplitF fNum fDen s N).trainIdx.length = trainCountF fNum fDen N := by
  unfold randomSplitF
  simp only [List.length_take, fisherYates_length, List.length_range]
  exact Nat.min_eq_left (trainCountF_le fNum fDen N h)

/-- The validation partition holds exactly the remaining `N − ⌊f·N⌋`
indices. -/
theorem randomSplitF_valIdx_length (fNum fDen s N : ℕ) :
    (randomSplitF fNum fDen s N).valIdx.length = N - trainCountF fNum fDen N := by
  unfold randomSplitF
  simp [List.length_drop, fisherYates_length, List.length_range]

/-- Two or more samples give a nonempty training partition (`⌊0.85·N⌋ ≥ 1`
for `N ≥ 2`). -/
theorem trainCount_pos (N : ℕ) (hN : 2 ≤ N) : 0 < trainCount N := by
  unfold trainCount trainCountF
  have h := (Nat.one_le_div_iff (show 0 < 20 by norm_num)).mpr
    (show 20 ≤ 17 * N by omega)
  omega

/-- The training partition never swallows a nonempty dataset
(`⌊0.85·N⌋ < N` for `N ≥ 1`). -/
theorem trainCount_lt (N : ℕ) (hN : 1 ≤ N) : trainCount N < N := by
  unfold trainCount trainCountF
  rw [Nat.div_lt_iff_lt_mul (by norm_num)]
  omega

/-- For `N ≥ 2` both partitions of the code's split are nonempty. -/
theorem randomSplit_parts_ne_nil (s N : ℕ) (hN : 2 ≤ N) :
    (randomSplit s N).trainIdx ≠ [] ∧ (randomSplit s N).valIdx ≠ [] := by
  constructor
  · intro hc
    unfold randomSplit at hc
    have := randomSplitF_trainIdx_length 17 20 s N (by norm_num)
    rw [hc] at this
    have h2 := trainCount_pos N hN
    unfold trainCount at h2
    simp only [List.length_nil] at this
    omega
  · intro hc
    unfold randomSplit at hc
    have := randomSplitF_valIdx_length 17 20 s N
    rw [hc] at this
    have h2 := trainCount_lt N (by omega)
    simp only [List.length_nil] at this
    unfold trainCount at h2
    omega

/-! ### How the loop outcome surfaces from `train_model` -/

/-- A completed loop makes `train_model` return the accumulated history and
persist the artifacts exactly when `save_training_results` is set. -/
theorem trainModel_completed (O : ModelOracle) (N epochs B : ℕ) (seed : ℤ)
    (trial : Option (ℕ → Bool)) (save : Bool) (hist : List EpochRecord)
    (hB : B ≠ 0) (hN : 2 ≤ N)
    (h : trainLoop O 0 B (randomSplit 0 N).trainIdx (randomSplit 0 N).valIdx
      trial (List.range epochs) [] = .completed hist) :
    trainModel O N epochs B seed trial save =
      .ok ⟨hist, if save then saveResults else []⟩ := by
  have hne := (randomSplit_parts_ne_nil 0 N hN).1
  simp only [trainModel]
  rw [if_neg hB, if_neg (fun hc => hne (List.isEmpty_iff.mp hc)), h]

/-- A pruned loop makes `train_model` raise `optuna.TrialPruned`: the
accumulated history is dropped and `save_results` never runs. -/
theorem trainModel_pruned (O : ModelOracle) (N epochs B : ℕ) (seed : ℤ)
    (trial : Option (ℕ → Bool)) (save : Bool) (hist : List EpochRecord)
    (hB : B ≠ 0) (hN : 2 ≤ N)
    (h : trainLoop O 0 B (randomSplit 0 N).trainIdx (randomSplit 0 N).valIdx
      trial (List.range epochs) [] = .pruned hist) :
    trainModel O N epochs B seed trial save = .error .trialPruned := by
  have hne := (randomSplit_parts_ne_nil 0 N hN).1
  simp only [trainModel]
  rw [if_neg hB, if_neg (fun hc => hne (List.isEmpty_iff.mp hc)), h]

/-! ### The claims -/

/-- C1, counterexample.  The claim says a pruned run "preserves and returns
the partial Metric History to the caller".  The code instead executes
`raise optuna.TrialPruned()` (line 203): the call produces no value at all
(`isOk = false`), and two runs that accumulated different metric histories
before the prune produce the very same outcome, so the caller cannot recover
any history from it — the partial history is discarded, not returned.
Concrete input: dataset size 2, `epochs = 3`, default batch size 250, a
trial handle pruning at epoch 2, and two model oracles (unit loss/all
correct vs. zero loss/all wrong) whose loop histories differ. -/
theorem C1_counterexample :
    trainModel oracleZero 2 3 250 0 (some pruneAtTwo) true =
      .error .trialPruned ∧
    (trainModel oracleZero 2 3 250 0 (some pruneAtTwo) true).isOk = false ∧
    trainModel oracleOne 2 3 250 0 (some pruneAtTwo) true =
      trainModel oracleZero 2 3 250 0 (some pruneAtTwo) true ∧
    outcomeHist (trainLoop oracleOne 0 250 (randomSplit 0 2).trainIdx
        (randomSplit 0 2).valIdx (some pruneAtTwo) (List.range 3) []) ≠
      outcomeHist (trainLoop oracleZero 0 250 (randomSplit 0 2).trainIdx
        (randomSplit 0 2).valIdx (some pruneAtTwo) (List.range 3) []) := by
  refine ⟨by decide, by decide, by with_unfolding_all decide,
    by with_unfolding_all decide⟩

/-- C1 (amended): when the trial handle first answers `should_prune() =
true` at the end of epoch `e` (0-based) of a run with `e < epochs`, the run
aborts immediately with `TrialPruned` — no further epoch runs and
`save_results` is never reached, so no artifact is persisted — and the
Metric History accumulated at the abort point holds exactly the `e + 1`
records of epochs `0, …, e`; but that history is only the loop's local
state: the raised `TrialPruned` outcome carries no history, so nothing is
returned to the caller. -/
theorem C1_pruned_run (O : ModelOracle) (N epochs B e : ℕ) (seed : ℤ)
    (save : Bool) (p : ℕ → Bool) (hN : 2 ≤ N) (hB : 0 < B) (he : e < epochs)
    (hbefore : ∀ j, j < e → p j = false) (hpe : p e = true) :
    trainModel O N epochs B seed (some p) save = .error .trialPruned ∧
    trainLoop O 0 B (randomSplit 0 N).trainIdx (randomSplit 0 N).valIdx
        (some p) (List.range epochs) [] =
      .pruned ((List.range (e + 1)).map (epochRecord O 0 B
        (randomSplit 0 N).trainIdx (randomSplit 0 N).valIdx)) ∧
    ((List.range (e + 1)).map (epochRecord O 0 B
        (randomSplit 0 N).trainIdx (randomSplit 0 N).valIdx)).length = e + 1 := by
  obtain ⟨htI, hvI⟩ := randomSplit_parts_ne_nil 0 N hN
  have hloop := trainLoop_prune_at O 0 B (randomSplit 0 N).trainIdx
    (randomSplit 0 N).valIdx p htI hvI epochs 0 e [] (Nat.zero_le e)
    (by omega) (fun j _ hj => hbefore j hj) hpe
  rw [List.nil_append] at hloop
  have hrange : List.range' 0 (e + 1 - 0) = List.range (e + 1) := by
    rw [Nat.sub_zero, List.range_eq_range']
  rw [hrange] at hloop
  rw [← List.range_eq_range'] at hloop
  exact ⟨trainModel_pruned O N epochs B seed (some p) save _
    (Nat.pos_iff_ne_zero.mp hB) hN hloop, hloop, by simp⟩

/-- C2, counterexample.  The claim says a run with `epochs = 0` and default
configuration persists nothing.  With the default
`save_training_results = True` the code still calls `save_results`
(line 213), which writes the untrained model weights, the statistics pickle
and both plot files; the Metric History is empty as claimed.  Concrete
input: dataset size 2, `epochs = 0`, all defaults. -/
theorem C2_counterexample :
    trainModel oracleZero 2 0 250 0 none true =
      .ok ⟨[], [.modelWeights, .statsDict, .lossPlot, .accuracyPlot]⟩ ∧
    ([.modelWeights, .statsDict, .lossPlot, .accuracyPlot] : List Artifact) ≠ [] := by
  refine ⟨by decide, by decide⟩

/-- C2 (amended): a run with `epochs = 0` returns an empty Metric History,
but with the default `save_training_results = true` it still persists the
full artifact bundle (untrained weights, statistics pickle, both plots);
only `save_training_results = false` suppresses persistence. -/
theorem C2_zero_epochs (O : ModelOracle) (N B : ℕ) (seed : ℤ)
    (hN : 2 ≤ N) (hB : 0 < B) :
    trainModel O N 0 B seed none true = .ok ⟨[], saveResults⟩ ∧
    trainModel O N 0 B seed none false = .ok ⟨[], []⟩ := by
  have h0 : trainLoop O 0 B (randomSplit 0 N).trainIdx (randomSplit 0 N).valIdx
      none (List.range 0) [] = .completed [] := rfl
  constructor
  · rw [trainModel_completed O N 0 B seed none true []
      (Nat.pos_iff_ne_zero.mp hB) hN h0]
    simp
  · rw [trainModel_completed O N 0 B seed none false []
      (Nat.pos_iff_ne_zero.mp hB) hN h0]
    simp

/-- C3, counterexample.  The claim says the Dataset Splitter fails with
`InvalidSplitError` when `N < 2`.  The code performs no validation at all:
at `N = 1` (and even `N = 0`) the split of lines 77–79 succeeds, returning
an empty training partition, and no `InvalidSplitError` exists anywhere in
the code. -/
theorem C3_counterexample :
    datasetSplitter 0 1 0 = .ok ⟨[], [0]⟩ ∧
    datasetSplitter 0 1 0 ≠ .error .invalidSplit ∧
    datasetSplitter 0 0 0 = .ok ⟨[], []⟩ := by
  refine ⟨by decide, by decide, by decide⟩

/-- C3 (amended): the Dataset Splitter never raises — `f` is hard-coded to
`0.85`, so a malformed fraction cannot occur, and no size check exists; for
`N < 2` it silently returns an empty training partition, and the run then
fails before any training epoch, but with `StopIteration` from the
`dataiter.next()` peek at line 98, not with an `InvalidSplitError` from the
splitter. -/
theorem C3_split_validation (a N s : ℕ) (O : ModelOracle) (epochs B : ℕ)
    (seed : ℤ) (trial : Option (ℕ → Bool)) (save : Bool)
    (hB : 0 < B) (hN : N < 2) :
    datasetSplitter a N s = .ok (randomSplit s N) ∧
    trainModel O N epochs B seed trial save = .error .stopIteration := by
  refine ⟨rfl, ?_⟩
  have hc : trainCountF 17 20 N = 0 := by
    unfold trainCountF
    exact Nat.div_eq_of_lt (by omega)
  have hlen : (randomSplit 0 N).trainIdx.length = 0 := by
    rw [show (randomSplit 0 N).trainIdx = (randomSplitF 17 20 0 N).trainIdx from rfl,
      randomSplitF_trainIdx_length 17 20 0 N (by norm_num), hc]
  have hnil : (randomSplit 0 N).trainIdx = [] := List.eq_nil_of_length_eq_zero hlen
  simp only [trainModel]
  rw [if_neg (Nat.pos_iff_ne_zero.mp hB), if_pos (List.isEmpty_iff.mpr hnil)]

/-- C4, counterexample.  The claim says finalization with zero batches fails
with `EmptyPartitionError`.  Lines 184–187 perform plain Python divisions:
with zero training batches the first division raises the built-in
`ZeroDivisionError` — so no NaN is produced, but the error is not the
`EmptyPartitionError` the claim names, and no such error class exists in
the code. -/
theorem C4_counterexample :
    finalizeEpoch 0 0 0 0 0 1 1 1 = .error .zeroDivision ∧
    (Except.error PyError.zeroDivision : Except PyError EpochRecord) ≠
      .error .emptyPartition := by
  refine ⟨by decide, by decide⟩

/-- C4 (amended): whenever metric finalization is reached with zero batches
(or an empty partition) in any of its four divisors, it fails with the
Python built-in `ZeroDivisionError` — it never produces a NaN value, and it
does not raise any `EmptyPartitionError`. -/
theorem C4_finalize_zero_batches (a b : ℚ) (c d n1 s1 n2 s2 : ℕ)
    (h : n1 = 0 ∨ s1 = 0 ∨ n2 = 0 ∨ s2 = 0) :
    finalizeEpoch a c b d n1 s1 n2 s2 = .error .zeroDivision :=
  finalizeEpoch_zero a b c d n1 s1 n2 s2 h

/-- C5 (confirmed): the `seed` argument of `train_model` has no effect —
line 40 overwrites it with `0` before the generators are seeded (lines
42–43), so two calls differing only in `seed` produce identical splits,
batch orders, metric histories, artifacts and outcomes. -/
theorem C5_seed_ignored (O : ModelOracle) (N epochs B : ℕ) (s1 s2 : ℤ)
    (trial : Option (ℕ → Bool)) (save : Bool) :
    trainModel O N epochs B s1 trial save =
      trainModel O N epochs B s2 trial save := rfl

/-- C6 (confirmed): the Dataset Splitter is deterministic — it reseats the
generator from its `seed` argument (line 42), discarding whatever ambient
generator state the process had, so two invocations with the same dataset
length and seed produce identical Training/Validation index sets within and
across processes, and the result is exactly the pure function
`randomSplit seed N` of the pair `(N, seed)`. -/
theorem C6_splitter_deterministic (a1 a2 N s : ℕ) :
    datasetSplitter a1 N s = datasetSplitter a2 N s ∧
    datasetSplitter a1 N s = .ok (randomSplit s N) := ⟨rfl, rfl⟩

/-- C7 (confirmed): for every valid split fraction `f = fNum/fDen ∈ (0,1)`
and every `(N, seed)`, the splitter's Training partition holds exactly
`⌊f·N⌋` indices (stated both as the natural division the code computes and
as the rational floor the spec writes), the Validation partition exactly
`N − ⌊f·N⌋`, the two are disjoint, and together they cover `[0, N)`
exactly.  The code instantiates `fNum/fDen = 17/20`. -/
theorem C7_partition_sizes (fNum fDen s N : ℕ) (hf0 : 0 < fNum)
    (hf1 : fNum < fDen) :
    (randomSplitF fNum fDen s N).trainIdx.length = trainCountF fNum fDen N ∧
    ((trainCountF fNum fDen N : ℕ) : ℤ) = ⌊((fNum : ℚ) / fDen) * N⌋ ∧
    (randomSplitF fNum fDen s N).valIdx.length = N - trainCountF fNum fDen N ∧
    (∀ i ∈ (randomSplitF fNum fDen s N).trainIdx,
      i ∉ (randomSplitF fNum fDen s N).valIdx) ∧
    (∀ i, (i ∈ (randomSplitF fNum fDen s N).trainIdx ∨
      i ∈ (randomSplitF fNum fDen s N).valIdx) ↔ i < N) := by
  have hperm := fisherYates_perm s (List.range N)
  have hnd : (fisherYates s (List.range N)).Nodup :=
    hperm.nodup_iff.mpr (List.nodup_range N)
  have hsplit : (fisherYates s (List.range N)).take (trainCountF fNum fDen N) ++
      (fisherYates s (List.range N)).drop (trainCountF fNum fDen N) =
      fisherYates s (List.range N) := List.take_append_drop _ _
  have hnd2 := hnd
  rw [← hsplit] at hnd2
  have hdisj := (List.nodup_append.mp hnd2).2.2
  refine ⟨randomSplitF_trainIdx_length fNum fDen s N (le_of_lt hf1), ?_,
    randomSplitF_valIdx_length fNum fDen s N, ?_, ?_⟩
  · have h1 : ((fNum : ℚ) / fDen) * N = ((fNum * N : ℕ) : ℚ) / ((fDen : ℕ) : ℚ) := by
      push_cast
      ring
    rw [h1, Rat.floor_natCast_div_natCast]
    exact (Int.ofNat_div _ _).symm
  · intro i hi
    exact hdisj hi
  · intro i
    constructor
    · intro hi
      have hmem : i ∈ fisherYates s (List.range N) := by
        rw [← hsplit]
        rcases hi with hi | hi
        · exact List.mem_append.mpr (Or.inl hi)
        · exact List.mem_append.mpr (Or.inr hi)
      exact List.mem_range.mp (hperm.mem_iff.mp hmem)
    · intro hi
      have hmem : i ∈ fisherYates s (List.range N) :=
        hperm.mem_iff.mpr (List.mem_range.mpr hi)
      rw [← hsplit] at hmem
      exact List.mem_append.mp hmem

/-- C8 (confirmed): with a dataset of at least two samples and a positive
batch size, (i) a run whose trial handle never signals a prune during the
window completes all `epochs` epochs and returns a Metric History of exactly
`epochs` records, one appended per completed epoch; (ii) when the handle
first signals a prune at the end of the epoch with 0-based index `e` — the
`(e+1)`-th completed epoch, the spec's "epoch k" counted 1-based as in its
Scenario C — the loop stops with a Metric History of exactly `e + 1 = k`
records. -/
theorem C8_epoch_count (O : ModelOracle) (N epochs B e : ℕ) (seed : ℤ)
    (save : Bool) (trial : Option (ℕ → Bool)) (p : ℕ → Bool)
    (hN : 2 ≤ N) (hB : 0 < B) :
    ((∀ j, j < epochs → pruneCheck trial j = false) →
      trainModel O N epochs B seed trial save =
        .ok ⟨(List.range epochs).map (epochRecord O 0 B
            (randomSplit 0 N).trainIdx (randomSplit 0 N).valIdx),
          if save then saveResults else []⟩ ∧
      ((List.range epochs).map (epochRecord O 0 B
        (randomSplit 0 N).trainIdx (randomSplit 0 N).valIdx)).length = epochs) ∧
    ((e < epochs ∧ (∀ j, j < e → p j = false) ∧ p e = true) →
      trainLoop O 0 B (randomSplit 0 N).trainIdx (randomSplit 0 N).valIdx
          (some p) (List.range epochs) [] =
        .pruned ((List.range (e + 1)).map (epochRecord O 0 B
          (randomSplit 0 N).trainIdx (randomSplit 0 N).valIdx)) ∧
      ((List.range (e + 1)).map (epochRecord O 0 B
        (randomSplit 0 N).trainIdx (randomSplit 0 N).valIdx)).length = e + 1) := by
  obtain ⟨htI, hvI⟩ := randomSplit_parts_ne_nil 0 N hN
  constructor
  · intro hnp
    have hloop := trainLoop_no_prune O 0 B (randomSplit 0 N).trainIdx
      (randomSplit 0 N).valIdx trial htI hvI epochs 0 []
      (fun j _ hj => hnp j (by omega))
    rw [List.nil_append] at hloop
    rw [← List.range_eq_range'] at hloop
    refine ⟨?_, by simp⟩
    exact trainModel_completed O N epochs B seed trial save _
      (Nat.pos_iff_ne_zero.mp hB) hN hloop
  · rintro ⟨he, hbefore, hpe⟩
    have hloop := trainLoop_prune_at O 0 B (randomSplit 0 N).trainIdx
      (randomSplit 0 N).valIdx p htI hvI epochs 0 e [] (Nat.zero_le e)
      (by omega) (fun j _ hj => hbefore j hj) hpe
    rw [List.nil_append] at hloop
    have hrange : List.range' 0 (e + 1 - 0) = List.range (e + 1) := by
      rw [Nat.sub_zero, List.range_eq_range']
    rw [hrange] at hloop
    rw [← List.range_eq_range'] at hloop
    exact ⟨hloop, by simp⟩

/-- C9 (confirmed): one full pass of the Batch Iterator over a partition of
size `P` with batch size `B > 0` yields batches whose sizes sum to exactly
`P`; the sizes are `⌊P/B⌋` copies of `B` followed, exactly when `B` does
not divide `P`, by one smaller final batch of size `P mod B` — no remainder
sample is dropped. -/
theorem C9_batch_coverage (s B : ℕ) (part : List ℕ) (hB : 0 < B) :
    ((oneEpochPass s part B).map List.length).sum = part.length ∧
    (oneEpochPass s part B).map List.length =
      List.replicate (part.length / B) B ++
        (if part.length % B = 0 then [] else [part.length % B]) := by
  have hsz := chunkAux_sizes B hB (fisherYates s part).length (fisherYates s part) le_rfl
  rw [fisherYates_length] at hsz
  have hmain : (oneEpochPass s part B).map List.length =
      List.replicate (part.length / B) B ++
        (if part.length % B = 0 then [] else [part.length % B]) := by
    unfold oneEpochPass batchesOf
    rw [fisherYates_length]
    exact hsz
  refine ⟨?_, hmain⟩
  rw [hmain, List.sum_append, List.sum_replicate, smul_eq_mul]
  by_cases h : part.length % B = 0
  · rw [if_pos h]
    simp only [List.sum_nil]
    rw [Nat.add_zero, Nat.div_mul_cancel (Nat.dvd_of_mod_eq_zero h)]
  · rw [if_neg h]
    simp only [List.sum_cons, List.sum_nil, Nat.add_zero]
    rw [Nat.mul_comm]
    exact Nat.div_add_mod part.length B

/-- C10 (confirmed): provided every per-sample NLL contribution of the
opaque model is nonnegative (the spec's log-probability output contract),
every record the training loop ever holds in its Metric History — however
the loop exits — has `train_loss ≥ 0`, `val_loss ≥ 0`, and both accuracies
in `[0, 1]`. -/
theorem C10_metric_range (O : ModelOracle) (s B epochs : ℕ)
    (tI vI : List ℕ) (trial : Option (ℕ → Bool))
    (hnll : ∀ ph k i, 0 ≤ O.nll ph k i) :
    ∀ r ∈ outcomeHist (trainLoop O s B tI vI trial (List.range epochs) []),
      0 ≤ r.trainLoss ∧ 0 ≤ r.valLoss ∧
        0 ≤ r.trainAcc ∧ r.trainAcc ≤ 1 ∧ 0 ≤ r.valAcc ∧ r.valAcc ≤ 1 := by
  exact trainLoop_hist_invariant O s B tI vI trial _
    (fun e r h => runEpoch_ok_bounds O s B tI vI e r hnll h)
    (List.range epochs) [] (by simp)

/-! ### Witnesses -/

/-- Witness for C1 (amended), at Scenario C's shape: dataset size 2,
`epochs = 3`, pruning first signalled at epoch 2, so three records exist at
the abort point. -/
theorem C1_pruned_run_witness :
    trainModel oracleOne 2 3 250 0 (some pruneAtTwo) true =
      .error .trialPruned ∧
    trainLoop oracleOne 0 250 (randomSplit 0 2).trainIdx
        (randomSplit 0 2).valIdx (some pruneAtTwo) (List.range 3) [] =
      .pruned ((List.range (2 + 1)).map (epochRecord oracleOne 0 250
        (randomSplit 0 2).trainIdx (randomSplit 0 2).valIdx)) ∧
    ((List.range (2 + 1)).map (epochRecord oracleOne 0 250
        (randomSplit 0 2).trainIdx (randomSplit 0 2).valIdx)).length = 2 + 1 :=
  C1_pruned_run oracleOne 2 3 250 2 0 true pruneAtTwo (by decide) (by decide)
    (by decide) (by decide) (by decide)

/-- Witness for C2 (amended) at dataset size 2 with the default batch
size. -/
theorem C2_zero_epochs_witness :
    trainModel oracleZero 2 0 250 0 none true = .ok ⟨[], saveResults⟩ ∧
    trainModel oracleZero 2 0 250 0 none false = .ok ⟨[], []⟩ :=
  C2_zero_epochs oracleZero 2 250 0 (by decide) (by decide)

/-- Witness for C3 (amended) at `N = 1`. -/
theorem C3_split_validation_witness :
    datasetSplitter 0 1 5 = .ok (randomSplit 5 1) ∧
    trainModel oracleZero 1 4 250 9 none true = .error .stopIteration :=
  C3_split_validation 0 1 5 oracleZero 4 250 9 none true (by decide) (by decide)

/-- Witness for C4 (amended): finalization with zero training batches. -/
theorem C4_finalize_zero_batches_witness :
    finalizeEpoch 0 0 0 0 0 5 5 5 = .error .zeroDivision :=
  C4_finalize_zero_batches 0 0 0 0 0 5 5 5 (Or.inl rfl)

/-- Witness for C7 at the spec's Scenario A: `N = 1000`, `f = 17/20`,
`seed = 7` gives an 850/150 split. -/
theorem C7_partition_sizes_witness :
    (randomSplitF 17 20 7 1000).trainIdx.length = trainCountF 17 20 1000 ∧
    ((trainCountF 17 20 1000 : ℕ) : ℤ) = ⌊((17 : ℚ) / 20) * 1000⌋ ∧
    (randomSplitF 17 20 7 1000).valIdx.length = 1000 - trainCountF 17 20 1000 ∧
    trainCountF 17 20 1000 = 850 ∧ 1000 - trainCountF 17 20 1000 = 150 :=
  ⟨(C7_partition_sizes 17 20 7 1000 (by decide) (by decide)).1,
   (C7_partition_sizes 17 20 7 1000 (by decide) (by decide)).2.1,
   (C7_partition_sizes 17 20 7 1000 (by decide) (by decide)).2.2.1,
   by decide, by decide⟩

/-- Witness for C8: dataset size 2, `epochs = 3`; part (i) with no trial
handle, part (ii) with a handle pruning first at epoch index 1, leaving
2 records. -/
theorem C8_epoch_count_witness :
    (trainModel oracleZero 2 3 250 0 none true =
      .ok ⟨(List.range 3).map (epochRecord oracleZero 0 250
          (randomSplit 0 2).trainIdx (randomSplit 0 2).valIdx), saveResults⟩ ∧
    ((List.range 3).map (epochRecord oracleZero 0 250
        (randomSplit 0 2).trainIdx (randomSplit 0 2).valIdx)).length = 3) ∧
    (trainLoop oracleZero 0 250 (randomSplit 0 2).trainIdx
        (randomSplit 0 2).valIdx (some (fun j => j == 1)) (List.range 3) [] =
      .pruned ((List.range (1 + 1)).map (epochRecord oracleZero 0 250
        (randomSplit 0 2).trainIdx (randomSplit 0 2).valIdx)) ∧
    ((List.range (1 + 1)).map (epochRecord oracleZero 0 250
        (randomSplit 0 2).trainIdx (randomSplit 0 2).valIdx)).length = 1 + 1) :=
  ⟨(C8_epoch_count oracleZero 2 3 250 1 0 true none (fun j => j == 1)
      (by decide) (by decide)).1 (by decide),
   (C8_epoch_count oracleZero 2 3 250 1 0 true none (fun j => j == 1)
      (by decide) (by decide)).2 ⟨by decide, by decide, by decide⟩⟩

/-- Witness for C9 at the spec's Scenario B: partition size 103, batch size
25, batch sizes `[25, 25, 25, 25, 3]`, sample total 103. -/
theorem C9_batch_coverage_witness :
    ((oneEpochPass 0 (List.range 103) 25).map List.length).sum =
      (List.range 103).length ∧
    (oneEpochPass 0 (List.range 103) 25).map List.length =
      List.replicate ((List.range 103).length / 25) 25 ++
        (if (List.range 103).length % 25 = 0 then []
          else [(List.range 103).length % 25]) ∧
    (oneEpochPass 0 (List.range 103) 25).map List.length = [25, 25, 25, 25, 3] :=
  ⟨(C9_batch_coverage 0 25 (List.range 103) (by decide)).1,
   (C9_batch_coverage 0 25 (List.range 103) (by decide)).2,
   by decide⟩

/-- Witness for C10: a one-epoch run over singleton partitions with the
unit-loss, all-correct oracle produces the record `(1, 1, 1, 1)`, which the
theorem bounds. -/
theorem C10_metric_range_witness :
    0 ≤ (EpochRecord.mk 1 1 1 1).trainLoss ∧
      0 ≤ (EpochRecord.mk 1 1 1 1).valLoss ∧
      0 ≤ (EpochRecord.mk 1 1 1 1).trainAcc ∧
      (EpochRecord.mk 1 1 1 1).trainAcc ≤ 1 ∧
      0 ≤ (EpochRecord.mk 1 1 1 1).valAcc ∧
      (EpochRecord.mk 1 1 1 1).valAcc ≤ 1 :=
  C10_metric_range oracleOne 0 1 1 [0] [1] none (fun _ _ _ => zero_le_one)
    (EpochRecord.mk 1 1 1 1) (by with_unfolding_all decide)

end FishTrain
